import Mathlib

/- =====================================================================
Shallow embedding of the Market Relevance Matching Engine:

* `calculate_market_relevance` and `levenshtein_ratio` from
  `api/main.py` (the deterministic heuristic scorer);
* `LLMMarketMatcherV2.find_best_markets`, `score_market`,
  `check_relevance`, `select_categories` and the `MarketMatch`
  pydantic model from `src/flows/llm_market_matcher_v2.py`;
* `select_best_market` from `src/flows/dspy_enhanced_aigg_flow.py`;
* `score_markets_batch`, `_fallback_individual_scoring`,
  `score_single_market` and the batch accumulation of
  `find_best_markets` from `src/flows/archive/llm_market_matcher.py`.

Modelling conventions: Python floats are rationals (ℚ, with non-integer
constants written `mkRat a b` for the decimal `a/b` in the source);
raising an exception is `none` (or threads through `Except`); each call
to the external reasoning service is replaced by an oracle argument,
indexed by the position of the call inside the enclosing loop, so that
every possible service behaviour (including failures) is quantified
over; `datetime` parsing of `end_date` is abstracted to its resulting
`(month, year)` pair, with `none` standing for a missing field or a
value the `try/except` parse rejects.
===================================================================== -/

namespace AiggSpec

/-- ASCII lower-casing, modelling Python `str.lower` (the repository's
queries, titles and lookup tables are ASCII; `Char.toLower` lowers
exactly `A`–`Z`). -/
def lowerStr (s : String) : String := String.mk (s.data.map Char.toLower)

/-- Python `str.strip()`: remove leading and trailing whitespace. -/
def pyStrip (s : String) : String :=
  String.mk (((s.data.dropWhile Char.isWhitespace).reverse.dropWhile Char.isWhitespace).reverse)

/-- The list `a` is a prefix of the list `b`. -/
def prefixOfL : List Char → List Char → Bool
  | [], _ => true
  | _ :: _, [] => false
  | a :: as, b :: bs => a = b && prefixOfL as bs

/-- `substrAux nd hy`: `nd` occurs contiguously inside `hy`. -/
def substrAux (nd : List Char) : List Char → Bool
  | [] => prefixOfL nd []
  | b :: bs => prefixOfL nd (b :: bs) || substrAux nd bs

/-- Python `needle in hay` on strings (the empty needle is contained in
every string). -/
def strContains (hay needle : String) : Bool := substrAux needle.data hay.data

/-- A character matched by `\w` in the regex `\b\w+\b` (ASCII letters,
digits, underscore). -/
def isWordChar (c : Char) : Bool := c.isAlphanum || c = '_'

/-- Maximal runs of word characters of a string, which is what
`re.findall(r'\b\w+\b', s)` returns; `cur` is the reversed run in
progress. -/
def wordRunsAux : List Char → List Char → List String
  | [], cur => if cur.isEmpty then [] else [String.mk cur.reverse]
  | c :: cs, cur =>
    if isWordChar c then wordRunsAux cs (c :: cur)
    else if cur.isEmpty then wordRunsAux cs []
    else String.mk cur.reverse :: wordRunsAux cs []

/-- The distinct word tokens of a string, Python's
`set(re.findall(r'\b\w+\b', s))`; only cardinality and membership of
the result are ever used, so a duplicate-free list models the set. -/
def wordTokenSet (s : String) : List String := (wordRunsAux s.data []).dedup

/-- Tail of the current Levenshtein DP row: `prev` is the previous row
from column `j` on, `cur` the value last appended to the current row. -/
def levRowAux (c1 : Char) : List Char → List ℕ → ℕ → List ℕ
  | [], _, _ => []
  | c2 :: cs, prev, cur =>
    match prev with
    | [] => []
    | p0 :: rest =>
      let v := min (rest.headD 0 + 1) (min (cur + 1) (p0 + (if c1 = c2 then 0 else 1)))
      v :: levRowAux c1 cs rest v

/-- Row-by-row loop of the Levenshtein table (`i` = index of `c1`). -/
def levLoop (s2 : List Char) : List Char → List ℕ → ℕ → List ℕ
  | [], prev, _ => prev
  | c1 :: cs, prev, i => levLoop s2 cs ((i + 1) :: levRowAux c1 s2 prev (i + 1)) (i + 1)

/-- Levenshtein edit distance, the final `previous_row[-1]`. -/
def levDistance (s1 s2 : List Char) : ℕ :=
  (levLoop s2 s1 (List.range (s2.length + 1)) 0).getLastD 0

/-- `levenshtein_ratio` from `api/main.py`: similarity ratio; the
function first swaps so the first string is the longer one and returns
`0.0` whenever the shorter string is empty. -/
def levenshtein_ratio (s1 s2 : String) : ℚ :=
  let a := if s1.length < s2.length then s2.data else s1.data
  let b := if s1.length < s2.length then s1.data else s2.data
  if b.length = 0 then 0
  else 1 - mkRat (levDistance a b) (max a.length b.length)

/-- A market row as read by `calculate_market_relevance`: exactly the
fields the function touches.  `endDate` is the `(month, year)` of the
parsed `end_date`. -/
structure MarketRow where
  title : Option String
  category : Option String
  endDate : Option (ℕ × ℕ)
  active : Bool
deriving DecidableEq, Repr

/-- The curated multi-word phrase list of step 1b. -/
def important_phrases : List String :=
  ["federal reserve", "interest rate", "interest rates",
   "rate cut", "rate cuts", "rate hike",
   "champions league", "premier league", "nba championship",
   "this year", "by june", "by end of", "end of year"]

/-- The synonym table of step 4. -/
def synonym_map : List (String × List String) :=
  [("trump", ["donald"]),
   ("donald", ["trump"]),
   ("bitcoin", ["btc", "crypto"]),
   ("btc", ["bitcoin", "crypto"]),
   ("crypto", ["bitcoin", "btc", "cryptocurrency"]),
   ("election", ["voting", "vote", "elections"]),
   ("championship", ["finals", "champion", "winner"]),
   ("price", ["value", "cost", "hit", "reach", "reaching"]),
   ("ai", ["artificial intelligence"]),
   ("artificial intelligence", ["ai"]),
   ("federal reserve", ["fed", "fomc", "federal", "reserve"]),
   ("fed", ["federal reserve", "fomc", "federal", "reserve"]),
   ("interest", ["rate", "rates"]),
   ("rate", ["interest", "rates"]),
   ("rates", ["interest", "rate"]),
   ("nuclear", ["atomic"]),
   ("war", ["conflict", "fighting"]),
   ("this year", ["2025", "end of year", "year end"]),
   ("year", ["2025"]),
   ("200k", ["200000", "$200k", "$200,000"]),
   ("120k", ["120000", "$120k", "$120,000"]),
   ("150k", ["150000", "$150k", "$150,000"])]

/-- The category-expectation table of step 5. -/
def category_map : List (String × List String) :=
  [("trump", ["us-current-affairs", "politics"]),
   ("election", ["us-current-affairs", "politics"]),
   ("bitcoin", ["crypto"]),
   ("nba", ["sports", "nba"]),
   ("basketball", ["sports", "nba"]),
   ("tesla", ["tech", "stocks"]),
   ("stock", ["tech", "finance"]),
   ("federal reserve", ["economics", "finance"]),
   ("nuclear", ["geopolitics", "military"]),
   ("ai", ["tech", "artificial intelligence"]),
   ("russia", ["geopolitics"]),
   ("ukraine", ["geopolitics"])]

/-- Year-end qualifier markers (`year_2025_refs`). -/
def year_2025_refs : List String :=
  ["2025", "this year", "by end of year", "year end", "december", "end of the year"]

/-- Near-term qualifier markers (`near_term_refs`). -/
def near_term_refs : List String :=
  ["june", "july", "august", "september", "this month", "next month", "soon"]

/-- Step 1: +0.8 when the lowercased query occurs inside the title. -/
def exactPhraseTerm (ql tl : String) : ℚ :=
  if strContains tl ql then mkRat 4 5 else 0

/-- Step 1b: +0.5 per curated phrase present in both query and title. -/
def phraseTerm (ql tl : String) : ℚ :=
  ((important_phrases.filter fun p => strContains ql p && strContains tl p).length : ℚ) *
    mkRat 1 2

/-- Number of distinct tokens common to query and title. -/
def interCount (qt tt : List String) : ℕ := (qt.filter fun t => tt.contains t).length

/-- `exact_match_ratio = |intersection| / |query tokens|` (only read
when both token sets are nonempty). -/
def exactMatchRatio (qt tt : List String) : ℚ := mkRat (interCount qt tt) qt.length

/-- Step 2: token-overlap term plus the ≥3-matches flat bonus; skipped
when either token set is empty. -/
def keywordTerm (qt tt : List String) : ℚ :=
  if qt ≠ [] ∧ tt ≠ [] then
    (if 2 < qt.length ∧ exactMatchRatio qt tt < mkRat 1 2 then
        exactMatchRatio qt tt * mkRat 2 5
      else exactMatchRatio qt tt * mkRat 3 5) +
      (if 3 ≤ interCount qt tt then mkRat 1 5 else 0)
  else 0

/-- `has_year_context`: some year-end marker occurs in the query. -/
def hasYearContext (ql : String) : Bool := year_2025_refs.any fun r => strContains ql r

/-- `has_near_term_context`: some near-term marker occurs in the query. -/
def hasNearTermContext (ql : String) : Bool := near_term_refs.any fun r => strContains ql r

/-- Step 3, `time_context_bonus`: month-based temporal term, active
only when the parsed month is truthy and the market year is 2025; the
year-end table applies only when no near-term marker is present. -/
def time_context_bonus (ql : String) (endDate : Option (ℕ × ℕ)) : ℚ :=
  match endDate with
  | none => 0
  | some (m, y) =>
    if m ≠ 0 ∧ y = 2025 then
      if hasYearContext ql ∧ ¬(hasNearTermContext ql = true) then
        if 11 ≤ m then mkRat 2 5
        else if 9 ≤ m then mkRat 1 5
        else if 7 ≤ m then mkRat 1 10
        else -mkRat 1 5
      else if hasNearTermContext ql then
        if m ≤ 7 then mkRat 3 10
        else if m ≤ 9 then mkRat 1 10
        else -mkRat 1 10
      else 0
    else 0

/-- Step 4 hit count: synonyms of distinct query tokens occurring in
the title (substring test, as in the source). -/
def synonymHits (qt : List String) (tl : String) : ℕ :=
  (qt.map fun t =>
    match synonym_map.find? fun e => e.1 == t with
    | some e => (e.2.filter fun syn => strContains tl syn).length
    | none => 0).sum

/-- Step 4: +0.1 per synonym hit, capped at +0.2. -/
def synonymTerm (qt : List String) (tl : String) : ℚ :=
  min ((synonymHits qt tl : ℚ) * mkRat 1 10) (mkRat 1 5)

/-- Step 5 hit count: expected categories of distinct query tokens
occurring in the market category (substring test). -/
def categoryHits (qt : List String) (cl : String) : ℕ :=
  (qt.map fun t =>
    match category_map.find? fun e => e.1 == t with
    | some e => (e.2.filter fun c => strContains cl (lowerStr c)).length
    | none => 0).sum

/-- Step 5: +0.15 per category hit, capped at +0.2. -/
def categoryTerm (qt : List String) (cl : String) : ℚ :=
  min ((categoryHits qt cl : ℚ) * mkRat 3 20) (mkRat 1 5)

/-- Step 6: similarity bonus when the Levenshtein ratio exceeds 0.3. -/
def similarityTerm (ql tl : String) : ℚ :=
  if mkRat 3 10 < levenshtein_ratio ql tl then levenshtein_ratio ql tl * mkRat 3 10 else 0

/-- The value `calculate_market_relevance` computes when it does not
raise: steps 1–9 of the additive point system, with the final
`min(relevance_score, 1.0)`. -/
def relevanceValue (query : String) (market : MarketRow) : ℚ :=
  let ql := pyStrip (lowerStr query)
  let tl := lowerStr (market.title.getD "")
  let cl := lowerStr (market.category.getD "")
  let qt := wordTokenSet ql
  let tt := wordTokenSet tl
  let s := exactPhraseTerm ql tl + phraseTerm ql tl + keywordTerm qt tt +
    time_context_bonus ql market.endDate + synonymTerm qt tl + categoryTerm qt cl +
    similarityTerm ql tl
  let s := if qt.length ≤ 2 ∧ exactMatchRatio qt tt < mkRat 1 2 then s * mkRat 7 10 else s
  let s := s + (if tt.length < 10 then mkRat 1 10 else 0) +
    (if market.active then mkRat 1 20 else 0)
  min s 1

/-- `calculate_market_relevance` from `api/main.py`.  Returns `none`
exactly when the Python function raises: step 7 reads
`exact_match_ratio`, a local assigned only when both token sets are
nonempty, so a query whose token set is empty — or a query with ≤ 2
distinct tokens against an empty title token set — hits an
`UnboundLocalError`. -/
def calculate_market_relevance (query : String) (market : MarketRow) : Option ℚ :=
  let qt := wordTokenSet (pyStrip (lowerStr query))
  let tt := wordTokenSet (lowerStr (market.title.getD ""))
  if qt.length ≤ 2 ∧ (qt = [] ∨ tt = []) then none
  else some (relevanceValue query market)

/-! ### Bounds of the individual scoring terms -/

theorem exactPhraseTerm_nonneg (ql tl : String) : 0 ≤ exactPhraseTerm ql tl := by
  unfold exactPhraseTerm
  split
  · decide
  · exact le_refl 0

theorem phraseTerm_nonneg (ql tl : String) : 0 ≤ phraseTerm ql tl := by
  unfold phraseTerm
  exact mul_nonneg (Nat.cast_nonneg _) (by decide)

theorem exactMatchRatio_nonneg (qt tt : List String) : 0 ≤ exactMatchRatio qt tt :=
  Rat.mkRat_nonneg (Int.natCast_nonneg _) _

theorem keywordTerm_nonneg (qt tt : List String) : 0 ≤ keywordTerm qt tt := by
  unfold keywordTerm
  split
  · refine add_nonneg ?_ ?_
    · split
      · exact mul_nonneg (exactMatchRatio_nonneg qt tt) (by decide)
      · exact mul_nonneg (exactMatchRatio_nonneg qt tt) (by decide)
    · split
      · decide
      · exact le_refl 0
  · exact le_refl 0

theorem synonymTerm_nonneg (qt : List String) (tl : String) : 0 ≤ synonymTerm qt tl := by
  unfold synonymTerm
  exact le_min (mul_nonneg (Nat.cast_nonneg _) (by decide)) (by decide)

theorem categoryTerm_nonneg (qt : List String) (cl : String) : 0 ≤ categoryTerm qt cl := by
  unfold categoryTerm
  exact le_min (mul_nonneg (Nat.cast_nonneg _) (by decide)) (by decide)

theorem similarityTerm_nonneg (ql tl : String) : 0 ≤ similarityTerm ql tl := by
  unfold similarityTerm
  split
  · rename_i h
    exact mul_nonneg (le_trans (by decide) (le_of_lt h)) (by decide)
  · exact le_refl 0

theorem time_context_bonus_lower (ql : String) (d : Option (ℕ × ℕ)) :
    -mkRat 1 5 ≤ time_context_bonus ql d := by
  unfold time_context_bonus
  rcases d with _ | ⟨m, y⟩
  · show -mkRat 1 5 ≤ (0 : ℚ)
    decide
  · dsimp only
    split
    · split
      · split
        · decide
        · split
          · decide
          · split
            · decide
            · exact le_refl _
      · split
        · split
          · decide
          · split
            · decide
            · decide
        · decide
    · decide

/-! ### Global bounds of the heuristic score -/

unseal Rat.mul in
theorem relevanceValue_bounds (q : String) (m : MarketRow) :
    -mkRat 1 5 ≤ relevanceValue q m ∧ relevanceValue q m ≤ 1 := by
  unfold relevanceValue
  dsimp only
  refine ⟨le_min ?_ (by decide), min_le_right _ _⟩
  have hb := time_context_bonus_lower (pyStrip (lowerStr q)) m.endDate
  have h1 := exactPhraseTerm_nonneg (pyStrip (lowerStr q)) (lowerStr (m.title.getD ""))
  have h2 := phraseTerm_nonneg (pyStrip (lowerStr q)) (lowerStr (m.title.getD ""))
  have h3 := keywordTerm_nonneg (wordTokenSet (pyStrip (lowerStr q)))
    (wordTokenSet (lowerStr (m.title.getD "")))
  have h4 := synonymTerm_nonneg (wordTokenSet (pyStrip (lowerStr q)))
    (lowerStr (m.title.getD ""))
  have h5 := categoryTerm_nonneg (wordTokenSet (pyStrip (lowerStr q)))
    (lowerStr (m.category.getD ""))
  have h6 := similarityTerm_nonneg (pyStrip (lowerStr q)) (lowerStr (m.title.getD ""))
  simp only [Rat.mkRat_eq_div] at *
  split_ifs <;> push_cast at * <;> nlinarith

/-- Helper: the assembled score (steps 7–9 plus the final clamp) is
monotone in the temporal bonus buried inside the step-1–6 sum. -/
theorem scoreAssembly_mono (P Q1 Q2 Q3 x y b1 b2 : ℚ) (c : Prop) [Decidable c]
    (hb : b1 ≤ b2) :
    min ((if c then (P + b1 + Q1 + Q2 + Q3) * mkRat 7 10 else P + b1 + Q1 + Q2 + Q3) + x + y) 1 ≤
    min ((if c then (P + b2 + Q1 + Q2 + Q3) * mkRat 7 10 else P + b2 + Q1 + Q2 + Q3) + x + y) 1 := by
  have hs : P + b1 + Q1 + Q2 + Q3 ≤ P + b2 + Q1 + Q2 + Q3 :=
    add_le_add_right (add_le_add_right (add_le_add_right (add_le_add_left hb P) Q1) Q2) Q3
  refine min_le_min ?_ le_rfl
  split_ifs
  · exact add_le_add_right (add_le_add_right (mul_le_mul_of_nonneg_right hs (by decide)) x) y
  · exact add_le_add_right (add_le_add_right hs x) y

/-- With no near-term qualifier in the query, `time_context_bonus` is
monotone in the resolution month (for genuine months `1 ≤ m`, any
year). -/
theorem time_bonus_mono (ql : String) (hn : hasNearTermContext ql = false)
    (mo1 mo2 y : ℕ) (hm1 : 1 ≤ mo1) (h12 : mo1 ≤ mo2) :
    time_context_bonus ql (some (mo1, y)) ≤ time_context_bonus ql (some (mo2, y)) := by
  have hmo1 : mo1 ≠ 0 := by omega
  have hmo2 : mo2 ≠ 0 := by omega
  have hnear : ¬(hasNearTermContext ql = true) := by simp [hn]
  unfold time_context_bonus
  dsimp only
  by_cases hy2 : y = 2025
  · subst hy2
    rw [if_pos (show mo1 ≠ 0 ∧ (2025 : ℕ) = 2025 from ⟨hmo1, rfl⟩),
      if_pos (show mo2 ≠ 0 ∧ (2025 : ℕ) = 2025 from ⟨hmo2, rfl⟩)]
    by_cases hy : hasYearContext ql = true
    · have hcond : hasYearContext ql = true ∧ ¬(hasNearTermContext ql = true) := ⟨hy, hnear⟩
      rw [if_pos hcond, if_pos hcond]
      split_ifs <;> first | decide | (exfalso; omega)
    · have hcond : ¬(hasYearContext ql = true ∧ ¬(hasNearTermContext ql = true)) := by
        simp [hy]
      rw [if_neg hcond, if_neg hcond, if_neg hnear, if_neg hnear]
  · have hc1 : ¬(mo1 ≠ 0 ∧ y = 2025) := by simp [hy2]
    have hc2 : ¬(mo2 ≠ 0 ∧ y = 2025) := by simp [hy2]
    rw [if_neg hc1, if_neg hc2]

/-! ### Concrete market rows used in the evaluations below -/

/-- Inactive market ending March 2025 whose 11-word title shares no
token, phrase, synonym or category signal with the query "this year". -/
def negScoreMarket : MarketRow :=
  { title := some "one two three four five six seven eight nine ten eleven"
    category := none, endDate := some (3, 2025), active := false }

/-- A perfectly well-formed market row (all fields present). -/
def wellFormedMarket : MarketRow :=
  { title := some "Will Bitcoin reach $100,000?"
    category := some "crypto", endDate := some (12, 2025), active := true }

/-- A market row with missing title/category/end_date fields. -/
def bareMarket : MarketRow :=
  { title := none, category := none, endDate := none, active := true }

/-- Market ending June 2025; title shares nothing with the queries used. -/
def junMarket : MarketRow :=
  { title := some "zzz qqq www", category := none, endDate := some (6, 2025), active := false }

/-- Identical to `junMarket` except that it resolves in December. -/
def decMarket : MarketRow := { junMarket with endDate := some (12, 2025) }

/-! ### C1 -/

unseal Rat.add Rat.mul Rat.sub in
set_option maxRecDepth 100000 in
/-- C1, counterexample: the final sum is only clamped from above
(`min(relevance_score, 1.0)`); for the query "this year" against
`negScoreMarket` the temporal penalty −0.2 survives multiplication by
0.7 and the function returns −0.14 < 0, outside [0,1]. -/
theorem heuristic_score_below_zero :
    calculate_market_relevance "this year" negScoreMarket = some (-mkRat 7 50) ∧
    -mkRat 7 50 < (0 : ℚ) := by
  decide

/-- C1 (amended): whenever `calculate_market_relevance` returns a
value, that value lies in [−0.2, 1]: the sum is clamped to at most 1
but has no lower clamp, and −0.2 (the worst temporal penalty) is the
exact lower bound of the possible totals. -/
theorem heuristic_score_range (q : String) (m : MarketRow) (v : ℚ)
    (h : calculate_market_relevance q m = some v) :
    -mkRat 1 5 ≤ v ∧ v ≤ 1 := by
  unfold calculate_market_relevance at h
  dsimp only at h
  split at h
  · exact absurd h (by simp)
  · cases Option.some.inj h
    exact relevanceValue_bounds q m

unseal Rat.add Rat.mul Rat.sub in
set_option maxRecDepth 100000 in
/-- Witness for C1's amended theorem at a concrete input. -/
theorem heuristic_score_range_witness :
    -mkRat 1 5 ≤ -mkRat 7 50 ∧ -mkRat 7 50 ≤ 1 :=
  heuristic_score_range "this year" negScoreMarket (-mkRat 7 50) (by decide)

/-! ### C2 -/

set_option maxRecDepth 100000 in
/-- C2: `calculate_market_relevance` is not total.  A query with no
word tokens (empty or punctuation-only), or a short query against a
market with no title, reaches step 7 (`len(query_terms) <= 2`) with
`exact_match_ratio` never assigned and raises `UnboundLocalError`
(modelled by `none`), instead of returning a float. -/
theorem heuristic_score_raises_on_tokenless_query :
    calculate_market_relevance "" wellFormedMarket = none ∧
    calculate_market_relevance "?!?" wellFormedMarket = none ∧
    calculate_market_relevance "bitcoin" bareMarket = none := by
  decide

/-! ### C6 -/

set_option maxRecDepth 100000 in
/-- C6, counterexample: the query "this year by june" contains the
year-end qualifier "this year", and `decMarket`-style dates resolve in
December 2025, so the claim demands the +0.4 year-end term; but the
query also contains "june", so the code takes the near-term branch and
adds −0.1 instead. -/
theorem yearend_term_overridden_by_near_term :
    hasYearContext "this year by june" = true ∧
    time_context_bonus "this year by june" (some (12, 2025)) = -mkRat 1 10 ∧
    ¬time_context_bonus "this year by june" (some (12, 2025)) = mkRat 2 5 := by
  decide

/-- C6 (amended): when the query has a year-end qualifier AND no
near-term qualifier, a market resolving in 2025 (the code's hard-coded
reference year) in month `m ≥ 1` receives exactly the tabulated
temporal term (+0.4 Nov–Dec, +0.2 Sep–Oct, +0.1 Jul–Aug, −0.2
Jan–Jun); with no end date, or with neither qualifier, no term is
added. -/
theorem time_context_bonus_spec (ql : String) (m y : ℕ) :
    (hasYearContext ql = true → hasNearTermContext ql = false → 1 ≤ m →
      time_context_bonus ql (some (m, 2025)) =
        if 11 ≤ m then mkRat 2 5
        else if 9 ≤ m then mkRat 1 5
        else if 7 ≤ m then mkRat 1 10
        else -mkRat 1 5) ∧
    time_context_bonus ql none = 0 ∧
    (hasYearContext ql = false → hasNearTermContext ql = false →
      time_context_bonus ql (some (m, y)) = 0) := by
  refine ⟨?_, rfl, ?_⟩
  · intro hyr hnr hm
    unfold time_context_bonus
    dsimp only
    rw [if_pos (show m ≠ 0 ∧ (2025 : ℕ) = 2025 from ⟨by omega, rfl⟩),
      if_pos (show hasYearContext ql = true ∧ ¬(hasNearTermContext ql = true) from
        ⟨hyr, by simp [hnr]⟩)]
  · intro hyr hnr
    unfold time_context_bonus
    dsimp only
    split
    · rw [if_neg (show ¬(hasYearContext ql = true ∧ ¬(hasNearTermContext ql = true)) by
        simp [hyr]), if_neg (show ¬(hasNearTermContext ql = true) by simp [hnr])]
    · rfl

/-- Witness for C6's amended theorem at concrete inputs. -/
theorem time_context_bonus_spec_witness :
    time_context_bonus "price by 2025" (some (12, 2025)) = mkRat 2 5 ∧
    time_context_bonus "bitcoin price" (some (5, 2025)) = 0 :=
  ⟨(time_context_bonus_spec "price by 2025" 12 0).1 (by decide) (by decide) (by decide),
   (time_context_bonus_spec "bitcoin price" 5 2025).2.2 (by decide) (by decide)⟩

/-! ### C7 -/

unseal Rat.add Rat.mul Rat.sub in
set_option maxRecDepth 100000 in
/-- C7, counterexample: for the query "this year by june" (which
contains the year-end qualifier "this year") and two markets identical
except for the resolution month, the later-resolving December market
scores 0 while the earlier June market scores 0.4 — strictly less, not
`≥`. -/
theorem yearend_monotonicity_fails :
    hasYearContext "this year by june" = true ∧
    calculate_market_relevance "this year by june" junMarket = some (mkRat 2 5) ∧
    calculate_market_relevance "this year by june" decMarket = some 0 ∧
    (0 : ℚ) < mkRat 2 5 := by
  decide

/-- C7 (amended): for a query with a year-end qualifier and NO
near-term qualifier, and two markets identical except for the
resolution month of their end date (same year, months ≥ 1), the
later-resolving market's heuristic score is ≥ the earlier one's
whenever both calls return. -/
theorem yearend_monotone (q : String) (t c : Option String) (a : Bool)
    (mo1 mo2 y : ℕ) (v1 v2 : ℚ)
    (hy : hasYearContext (pyStrip (lowerStr q)) = true)
    (hn : hasNearTermContext (pyStrip (lowerStr q)) = false)
    (hm1 : 1 ≤ mo1) (h12 : mo1 ≤ mo2)
    (e1 : calculate_market_relevance q ⟨t, c, some (mo1, y), a⟩ = some v1)
    (e2 : calculate_market_relevance q ⟨t, c, some (mo2, y), a⟩ = some v2) :
    v1 ≤ v2 := by
  unfold calculate_market_relevance at e1 e2
  dsimp only at e1 e2
  split at e1
  · exact absurd e1 (by simp)
  · split at e2
    · exact absurd e2 (by simp)
    · cases Option.some.inj e1
      cases Option.some.inj e2
      unfold relevanceValue
      dsimp only
      exact scoreAssembly_mono _ _ _ _ _ _ _ _ _
        (time_bonus_mono _ hn mo1 mo2 y hm1 h12)

unseal Rat.add Rat.mul Rat.sub in
set_option maxRecDepth 100000 in
/-- Witness for C7's amended theorem at concrete inputs. -/
theorem yearend_monotone_witness : -mkRat 1 25 ≤ mkRat 19 50 :=
  yearend_monotone "this year" (some "zzz qqq www") none false 6 12 2025
    (-mkRat 1 25) (mkRat 19 50) (by decide) (by decide) (by decide) (by decide)
    (by decide) (by decide)

/-! ## The two-stage matcher `LLMMarketMatcherV2`
(`src/flows/llm_market_matcher_v2.py`)

The reasoning-service calls (`category_selector`, `relevance_checker`,
`market_scorer`) are modelled by oracle arguments; `Except.error e`
stands for a call that raises an exception with message `e`.  The
per-candidate oracles are indexed by how many calls of that kind were
made before, so distinct candidates may behave arbitrarily
differently. -/

/-- A candidate market dictionary as read by `find_best_markets`: the
keys the engine touches (`market_id`/`id`, `title`/`question`,
`category`).  A key mapped to `None` and an absent key behave the same
under the `.get` chains used, so both are `none`. -/
structure CandMarket where
  marketId : Option String
  altId : Option String
  title : Option String
  question : Option String
  category : Option String
deriving DecidableEq, Repr

/-- `market['category'] = category`: the in-place tag of stage 1. -/
def CandMarket.setCategory (m : CandMarket) (cat : String) : CandMarket :=
  { m with category := some cat }

/-- The `MarketMatch` pydantic model; `relevance_score` carries the
validators `ge=0.0, le=1.0`. -/
structure MarketMatch where
  market_id : String
  title : String
  category : Option String
  relevance_score : ℚ
  relevance_tier : String
  reasoning : String
  keywords_matched : List String
deriving DecidableEq, Repr

/-- Constructing a `MarketMatch` runs the pydantic validators; a score
outside [0, 1] raises `ValidationError`, modelled by `none`. -/
def mkMarketMatch (id title : String) (category : Option String) (score : ℚ)
    (tier reasoning : String) (kws : List String) : Option MarketMatch :=
  if 0 ≤ score ∧ score ≤ 1 then some ⟨id, title, category, score, tier, reasoning, kws⟩
  else none

/-- `select_categories`: stage 1 with its fail-open fallback to all
categories on service error. -/
def select_categories (available_categories : List String)
    (resp : Except String (List String × String)) : List String × String :=
  match resp with
  | .ok r => r
  | .error _ => (available_categories, "Error in category selection, including all")

/-- `check_relevance` with its conservative `(False, [])` fallback. -/
def check_relevance (resp : Except String (Bool × List String)) : Bool × List String :=
  match resp with
  | .ok r => r
  | .error _ => (false, [])

/-- `score_market`: tiered scoring.  A score outside the claimed
tier's band is replaced by the band midpoint used in the source
(0.9 / 0.55 / 0.2); a service error yields `("LOW", 0.1, "Scoring
error: …")`.  A tier label other than HIGH/MEDIUM/LOW passes the raw
score through unvalidated. -/
def score_market (resp : Except String (String × ℚ × String)) : String × ℚ × String :=
  match resp with
  | .error e => ("LOW", mkRat 1 10, "Scoring error: " ++ e)
  | .ok (tier, score, reasoning) =>
    let score :=
      if tier = "HIGH" ∧ ¬(mkRat 4 5 ≤ score ∧ score ≤ 1) then mkRat 9 10
      else if tier = "MEDIUM" ∧ ¬(mkRat 2 5 ≤ score ∧ score ≤ mkRat 7 10) then mkRat 11 20
      else if tier = "LOW" ∧ ¬(0 ≤ score ∧ score ≤ mkRat 3 10) then mkRat 1 5
      else score
    (tier, score, reasoning)

/-- Dictionary lookup `markets_by_category[category]` (unique keys, so
the first matching entry). -/
def lookupCat (mbc : List (String × List CandMarket)) (cat : String) :
    Option (List CandMarket) :=
  (mbc.find? fun e => e.1 == cat).map (·.2)

/-- The in-place effect on the caller's dict of tagging every market
of `cat`'s list (`market['category'] = category`). -/
def tagCategory (mbc : List (String × List CandMarket)) (cat : String) :
    List (String × List CandMarket) :=
  mbc.map fun e =>
    if e.1 == cat then (e.1, e.2.map (CandMarket.setCategory · cat)) else e

/-- Stage 1 candidate gathering: for each selected category present in
the dict, tag each of its markets' `category` field in place and
append them to the candidate list.  Returns the mutated dict together
with the candidates. -/
def gatherCandidates : List String → List (String × List CandMarket) → List CandMarket →
    List (String × List CandMarket) × List CandMarket
  | [], mbc, acc => (mbc, acc)
  | cat :: rest, mbc, acc =>
    match lookupCat mbc cat with
    | some ms =>
      gatherCandidates rest (tagCategory mbc cat) (acc ++ ms.map (CandMarket.setCategory · cat))
    | none => gatherCandidates rest mbc acc

/-- Stage 2: per-candidate relevance gate and tiered scoring; `i`/`j`
count the `check_relevance`/`score_market` calls made so far, indexing
the oracles.  `none` models the uncaught `ValidationError` raised by
`MarketMatch` construction, which aborts the whole call. -/
def processCandidates (relOracle : ℕ → Except String (Bool × List String))
    (scoreOracle : ℕ → Except String (String × ℚ × String)) :
    List CandMarket → ℕ → ℕ → List MarketMatch → Option (List MarketMatch)
  | [], _, _, acc => some acc
  | m :: rest, i, j, acc =>
    let mid := (m.marketId.or m.altId).getD "unknown"
    let title := (m.title.or m.question).getD ""
    let cat := m.category.getD ""
    if (check_relevance (relOracle i)).1 then
      let smr := score_market (scoreOracle j)
      match mkMarketMatch mid title (some cat) smr.2.1 smr.1 smr.2.2
        (check_relevance (relOracle i)).2 with
      | some mm => processCandidates relOracle scoreOracle rest (i + 1) (j + 1) (acc ++ [mm])
      | none => none
    else processCandidates relOracle scoreOracle rest (i + 1) j acc

/-- Stable insertion into a list already sorted by descending
`relevance_score`: the new, later element goes after every element with
score ≥ its own — exactly where Python's stable `sort(key=score,
reverse=True)` keeps it. -/
def insertByScore (mm : MarketMatch) : List MarketMatch → List MarketMatch
  | [] => [mm]
  | x :: xs =>
    if mm.relevance_score ≤ x.relevance_score then x :: insertByScore mm xs
    else mm :: x :: xs

/-- `matches.sort(key=lambda x: x.relevance_score, reverse=True)`
as a stable insertion sort. -/
def sortByScoreDesc (l : List MarketMatch) : List MarketMatch :=
  l.foldl (fun acc mm => insertByScore mm acc) []

/-- `find_best_markets` of `LLMMarketMatcherV2`.  Returns the state of
the caller's `markets_by_category` dict after the call (stage 1
mutates it in place) together with `some` top-k matches, or `none`
when an invalid `MarketMatch` raised mid-loop. -/
def find_best_markets (query : String)
    (markets_by_category : List (String × List CandMarket))
    (available_categories : List String) (top_k : ℕ)
    (catOracle : Except String (List String × String))
    (relOracle : ℕ → Except String (Bool × List String))
    (scoreOracle : ℕ → Except String (String × ℚ × String)) :
    List (String × List CandMarket) × Option (List MarketMatch) :=
  let selected := (select_categories available_categories catOracle).1
  let st := gatherCandidates selected markets_by_category []
  (st.1,
    (processCandidates relOracle scoreOracle st.2 0 0 []).map fun ms =>
      (sortByScoreDesc ms).take top_k)

/-! ### C3: mutation of the caller's market records -/

/-- All fields of a candidate market except `category` agree. -/
def SameButCategory (m1 m2 : CandMarket) : Prop :=
  m1.marketId = m2.marketId ∧ m1.altId = m2.altId ∧ m1.title = m2.title ∧
    m1.question = m2.question

/-- Two dict states with the same keys whose markets agree entrywise
on everything except possibly `category`. -/
def DictSameButCategory (d1 d2 : List (String × List CandMarket)) : Prop :=
  List.Forall₂ (fun e1 e2 => e1.1 = e2.1 ∧ List.Forall₂ SameButCategory e1.2 e2.2) d1 d2

theorem sameButCategory_refl (m : CandMarket) : SameButCategory m m := ⟨rfl, rfl, rfl, rfl⟩

theorem sameButCategory_trans {a b c : CandMarket} (h1 : SameButCategory a b)
    (h2 : SameButCategory b c) : SameButCategory a c :=
  ⟨h1.1.trans h2.1, h1.2.1.trans h2.2.1, h1.2.2.1.trans h2.2.2.1, h1.2.2.2.trans h2.2.2.2⟩

theorem forall2_trans {α : Type} {R : α → α → Prop}
    (hR : ∀ a b c, R a b → R b c → R a c) :
    ∀ {l1 l2 l3 : List α}, List.Forall₂ R l1 l2 → List.Forall₂ R l2 l3 →
      List.Forall₂ R l1 l3
  | _, _, _, .nil, .nil => .nil
  | _, _, _, .cons h1 t1, .cons h2 t2 => .cons (hR _ _ _ h1 h2) (forall2_trans hR t1 t2)

theorem forall2_sameButCategory_refl (l : List CandMarket) :
    List.Forall₂ SameButCategory l l := by
  induction l with
  | nil => exact .nil
  | cons h t ih => exact .cons (sameButCategory_refl h) ih

theorem dictSameButCategory_refl (d : List (String × List CandMarket)) :
    DictSameButCategory d d := by
  induction d with
  | nil => exact .nil
  | cons e t ih => exact .cons ⟨rfl, forall2_sameButCategory_refl e.2⟩ ih

theorem dictSameButCategory_trans {d1 d2 d3 : List (String × List CandMarket)}
    (h1 : DictSameButCategory d1 d2) (h2 : DictSameButCategory d2 d3) :
    DictSameButCategory d1 d3 :=
  forall2_trans
    (fun _ _ _ hab hbc =>
      ⟨hab.1.trans hbc.1,
        @forall2_trans CandMarket SameButCategory
          (fun _ _ _ hx hy => sameButCategory_trans hx hy) _ _ _ hab.2 hbc.2⟩)
    h1 h2

theorem forall2_setCategory (l : List CandMarket) (cat : String) :
    List.Forall₂ SameButCategory l (l.map (CandMarket.setCategory · cat)) := by
  induction l with
  | nil => exact .nil
  | cons h t ih => exact .cons ⟨rfl, rfl, rfl, rfl⟩ ih

theorem tagCategory_dictSame (mbc : List (String × List CandMarket)) (cat : String) :
    DictSameButCategory mbc (tagCategory mbc cat) := by
  induction mbc with
  | nil => exact .nil
  | cons e rest ih =>
    unfold tagCategory
    dsimp only [List.map]
    refine .cons ?_ ih
    split
    · exact ⟨rfl, forall2_setCategory e.2 cat⟩
    · exact ⟨rfl, forall2_sameButCategory_refl e.2⟩

theorem gatherCandidates_dictSame (sel : List String) :
    ∀ (mbc : List (String × List CandMarket)) (acc : List CandMarket),
      DictSameButCategory mbc (gatherCandidates sel mbc acc).1 := by
  induction sel with
  | nil =>
    intro mbc acc
    exact dictSameButCategory_refl mbc
  | cons cat rest ih =>
    intro mbc acc
    unfold gatherCandidates
    split
    · exact dictSameButCategory_trans (tagCategory_dictSame mbc cat) (ih _ _)
    · exact ih mbc acc

/-- One supplied candidate market with no `category` value. -/
def crypto1 : CandMarket :=
  { marketId := some "1", altId := none
    title := some "Will Bitcoin reach $200,000 by end of 2025?"
    question := none, category := none }

/-- A caller's `markets_by_category` dict with a single entry. -/
def cryptoDict : List (String × List CandMarket) := [("Crypto", [crypto1])]

/-- C3, counterexample: a dict with one Crypto market whose `category`
field is missing; after the call the caller's dict holds the market
with `category` overwritten to "Crypto" — the supplied record was
mutated (the relevance and scoring oracles are irrelevant: the
mutation happens in stage 1). -/
theorem find_best_markets_mutates_input :
    (find_best_markets "bitcoin price" cryptoDict ["Crypto"] 10 (.ok (["Crypto"], "r"))
        (fun _ => .ok (false, [])) (fun _ => .error "service down")).1 =
      [("Crypto", [{ crypto1 with category := some "Crypto" }])] ∧
    (find_best_markets "bitcoin price" cryptoDict ["Crypto"] 10 (.ok (["Crypto"], "r"))
        (fun _ => .ok (false, [])) (fun _ => .error "service down")).1 ≠ cryptoDict := by
  decide

/-- C3 (amended): the engine does mutate the caller's
`markets_by_category`, but only the `category` field of each market in
a selected category (the stage-1 tag); every other field of every
supplied record, and the dict's key structure, are unchanged for every
oracle behaviour. -/
theorem find_best_markets_mutates_only_category (query : String)
    (mbc : List (String × List CandMarket)) (cats : List String) (k : ℕ)
    (catO : Except String (List String × String))
    (relO : ℕ → Except String (Bool × List String))
    (scoreO : ℕ → Except String (String × ℚ × String)) :
    DictSameButCategory mbc (find_best_markets query mbc cats k catO relO scoreO).1 := by
  unfold find_best_markets
  exact gatherCandidates_dictSame _ mbc []

/-! ### C4: isolation of per-candidate failures -/

/-- C4, counterexample: one candidate's scoring response carries an
unrecognized tier label ("VERY HIGH") with an out-of-range score 1.5;
the band clamp in `score_market` only fires for HIGH/MEDIUM/LOW, so
the raw 1.5 reaches the `MarketMatch` validators and the resulting
`ValidationError` aborts the whole `find_best_markets` call (`none`)
instead of returning a result list. -/
theorem find_best_markets_aborts_on_malformed_tier :
    (find_best_markets "bitcoin price" cryptoDict ["Crypto"] 10 (.ok (["Crypto"], "r"))
        (fun _ => .ok (true, ["bitcoin"]))
        (fun _ => .ok ("VERY HIGH", mkRat 3 2, "great match"))).2 = none := by
  decide

/-- The emitted score of `score_market` lies in [0, 1] provided an
`ok` response either uses a recognized tier label or already carries
an in-range score. -/
theorem score_market_score_in_unit (resp : Except String (String × ℚ × String))
    (h : ∀ tier sc r, resp = .ok (tier, sc, r) →
      tier = "HIGH" ∨ tier = "MEDIUM" ∨ tier = "LOW" ∨ (0 ≤ sc ∧ sc ≤ 1)) :
    0 ≤ (score_market resp).2.1 ∧ (score_market resp).2.1 ≤ 1 := by
  cases resp with
  | error e =>
    unfold score_market
    dsimp only
    exact ⟨by decide, by decide⟩
  | ok v =>
    obtain ⟨tier, sc, r⟩ := v
    have hh := h tier sc r rfl
    unfold score_market
    dsimp only
    split_ifs with h1 h2 h3
    · exact ⟨by decide, by decide⟩
    · exact ⟨by decide, by decide⟩
    · exact ⟨by decide, by decide⟩
    · rcases hh with hH | hM | hL | hb
      · have hband := not_not.mp fun hb => h1 ⟨hH, hb⟩
        exact ⟨le_trans (by decide) hband.1, hband.2⟩
      · have hband := not_not.mp fun hb => h2 ⟨hM, hb⟩
        exact ⟨le_trans (by decide) hband.1, le_trans hband.2 (by decide)⟩
      · have hband := not_not.mp fun hb => h3 ⟨hL, hb⟩
        exact ⟨hband.1, le_trans hband.2 (by decide)⟩
      · exact hb

/-- Validation passes for an in-range score. -/
theorem mkMarketMatch_pos (id title : String) (category : Option String) (score : ℚ)
    (tier reasoning : String) (kws : List String) (hb : 0 ≤ score ∧ score ≤ 1) :
    mkMarketMatch id title category score tier reasoning kws =
      some ⟨id, title, category, score, tier, reasoning, kws⟩ :=
  if_pos hb

/-- Stage 2 never aborts when every scoring response is well-formed in
the sense of `score_market_score_in_unit`. -/
theorem processCandidates_total (relO : ℕ → Except String (Bool × List String))
    (scoreO : ℕ → Except String (String × ℚ × String))
    (h : ∀ j tier sc r, scoreO j = .ok (tier, sc, r) →
      tier = "HIGH" ∨ tier = "MEDIUM" ∨ tier = "LOW" ∨ (0 ≤ sc ∧ sc ≤ 1)) :
    ∀ (cands : List CandMarket) (i j : ℕ) (acc : List MarketMatch),
      (processCandidates relO scoreO cands i j acc).isSome := by
  intro cands
  induction cands with
  | nil =>
    intro i j acc
    rfl
  | cons m rest ih =>
    intro i j acc
    unfold processCandidates
    dsimp only
    split
    · rw [mkMarketMatch_pos _ _ _ _ _ _ _ (score_market_score_in_unit (scoreO j) (h j))]
      exact ih (i + 1) (j + 1) _
    · exact ih (i + 1) j acc

/-- C4 (amended): no single candidate's *service error* aborts the
call (relevance failures exclude the candidate, scoring failures
default it to LOW/0.1), and the call returns a result list for every
oracle behaviour in which each successful scoring response either uses
a recognized tier label (whose band clamp guarantees an in-range
score) or already reports a score in [0, 1].  Only an unrecognized
tier label combined with an out-of-range score aborts the call. -/
theorem find_best_markets_total_for_wellformed_scores (query : String)
    (mbc : List (String × List CandMarket)) (cats : List String) (k : ℕ)
    (catO : Except String (List String × String))
    (relO : ℕ → Except String (Bool × List String))
    (scoreO : ℕ → Except String (String × ℚ × String))
    (h : ∀ j tier sc r, scoreO j = .ok (tier, sc, r) →
      tier = "HIGH" ∨ tier = "MEDIUM" ∨ tier = "LOW" ∨ (0 ≤ sc ∧ sc ≤ 1)) :
    (find_best_markets query mbc cats k catO relO scoreO).2.isSome := by
  unfold find_best_markets
  dsimp only
  obtain ⟨v, hv⟩ := Option.isSome_iff_exists.mp
    (processCandidates_total relO scoreO h
      (gatherCandidates (select_categories cats catO).1 mbc []).2 0 0 [])
  rw [hv]
  rfl

/-- Witness for C4's amended theorem: a scoring oracle that always
answers HIGH with the out-of-band raw score 2 (clamped to 0.9), a
failing relevance service for nobody, on the one-market dict. -/
theorem find_best_markets_total_witness :
    (find_best_markets "bitcoin price" cryptoDict ["Crypto"] 10 (.ok (["Crypto"], "r"))
        (fun _ => .ok (true, ["bitcoin"])) (fun _ => .ok ("HIGH", 2, "strong"))).2.isSome :=
  find_best_markets_total_for_wellformed_scores "bitcoin price" cryptoDict ["Crypto"] 10
    (.ok (["Crypto"], "r")) (fun _ => .ok (true, ["bitcoin"]))
    (fun _ => .ok ("HIGH", 2, "strong"))
    (fun _ tier _ r hh => by cases hh; exact Or.inl rfl)

/-! ### C5: tier-band consistency of `score_market` -/

/-- C5: for every raw tiered-scoring response, the emitted score lies
in the claimed tier's band (HIGH [0.8,1], MEDIUM [0.4,0.7], LOW
[0,0.3]); an out-of-band raw score is replaced by the source's band
midpoint (0.9 / 0.55 / 0.2) while an in-band raw passes through; tier
label and reasoning are preserved; and a service error yields tier
LOW, score 0.1 and a "Scoring error: …" reasoning — the candidate is
never dropped by scoring. -/
theorem score_market_bands (tier : String) (raw : ℚ) (r e : String) :
    score_market (.error e) = ("LOW", mkRat 1 10, "Scoring error: " ++ e) ∧
    (tier = "HIGH" → mkRat 4 5 ≤ (score_market (.ok (tier, raw, r))).2.1 ∧
      (score_market (.ok (tier, raw, r))).2.1 ≤ 1) ∧
    (tier = "MEDIUM" → mkRat 2 5 ≤ (score_market (.ok (tier, raw, r))).2.1 ∧
      (score_market (.ok (tier, raw, r))).2.1 ≤ mkRat 7 10) ∧
    (tier = "LOW" → 0 ≤ (score_market (.ok (tier, raw, r))).2.1 ∧
      (score_market (.ok (tier, raw, r))).2.1 ≤ mkRat 3 10) ∧
    (tier = "HIGH" → ¬(mkRat 4 5 ≤ raw ∧ raw ≤ 1) →
      (score_market (.ok (tier, raw, r))).2.1 = mkRat 9 10) ∧
    (tier = "MEDIUM" → ¬(mkRat 2 5 ≤ raw ∧ raw ≤ mkRat 7 10) →
      (score_market (.ok (tier, raw, r))).2.1 = mkRat 11 20) ∧
    (tier = "LOW" → ¬(0 ≤ raw ∧ raw ≤ mkRat 3 10) →
      (score_market (.ok (tier, raw, r))).2.1 = mkRat 1 5) ∧
    ((tier = "HIGH" ∨ tier = "MEDIUM" ∨ tier = "LOW") →
      (mkRat 4 5 ≤ raw ∧ raw ≤ 1 → tier = "HIGH" →
        (score_market (.ok (tier, raw, r))).2.1 = raw)) ∧
    (score_market (.ok (tier, raw, r))).1 = tier ∧
    (score_market (.ok (tier, raw, r))).2.2 = r := by
  unfold score_market
  dsimp only
  split_ifs with h1 h2 h3
  · refine ⟨rfl, ?_, ?_, ?_, ?_, ?_, ?_, ?_, rfl, rfl⟩
    · intro _
      exact ⟨by decide, by decide⟩
    · intro hM
      rw [h1.1] at hM
      exact absurd hM (by decide)
    · intro hL
      rw [h1.1] at hL
      exact absurd hL (by decide)
    · intro _ _
      rfl
    · intro hM
      rw [h1.1] at hM
      exact absurd hM (by decide)
    · intro hL
      rw [h1.1] at hL
      exact absurd hL (by decide)
    · intro _ hband _
      exact absurd hband h1.2
  · refine ⟨rfl, ?_, ?_, ?_, ?_, ?_, ?_, ?_, rfl, rfl⟩
    · intro hH
      rw [h2.1] at hH
      exact absurd hH (by decide)
    · intro _
      exact ⟨by decide, by decide⟩
    · intro hL
      rw [h2.1] at hL
      exact absurd hL (by decide)
    · intro hH
      rw [h2.1] at hH
      exact absurd hH (by decide)
    · intro _ _
      rfl
    · intro hL
      rw [h2.1] at hL
      exact absurd hL (by decide)
    · intro _ _ hH
      rw [h2.1] at hH
      exact absurd hH (by decide)
  · refine ⟨rfl, ?_, ?_, ?_, ?_, ?_, ?_, ?_, rfl, rfl⟩
    · intro hH
      rw [h3.1] at hH
      exact absurd hH (by decide)
    · intro hM
      rw [h3.1] at hM
      exact absurd hM (by decide)
    · intro _
      exact ⟨by decide, by decide⟩
    · intro hH
      rw [h3.1] at hH
      exact absurd hH (by decide)
    · intro hM
      rw [h3.1] at hM
      exact absurd hM (by decide)
    · intro _ _
      rfl
    · intro _ _ hH
      rw [h3.1] at hH
      exact absurd hH (by decide)
  · refine ⟨rfl, ?_, ?_, ?_, ?_, ?_, ?_, ?_, rfl, rfl⟩
    · intro hH
      have hband := not_not.mp fun hb => h1 ⟨hH, hb⟩
      exact hband
    · intro hM
      exact not_not.mp fun hb => h2 ⟨hM, hb⟩
    · intro hL
      exact not_not.mp fun hb => h3 ⟨hL, hb⟩
    · intro hH hnb
      exact absurd (not_not.mp fun hb => h1 ⟨hH, hb⟩) hnb
    · intro hM hnb
      exact absurd (not_not.mp fun hb => h2 ⟨hM, hb⟩) hnb
    · intro hL hnb
      exact absurd (not_not.mp fun hb => h3 ⟨hL, hb⟩) hnb
    · intro _ _ _
      rfl

/-- Witness for C5 at concrete responses: an out-of-band HIGH raw of
1.5 is clamped to the midpoint 0.9, and a failed call becomes
LOW/0.1/"Scoring error: timeout". -/
theorem score_market_bands_witness :
    (score_market (.ok ("HIGH", mkRat 3 2, "why"))).2.1 = mkRat 9 10 ∧
    score_market (.error "timeout") = ("LOW", mkRat 1 10, "Scoring error: " ++ "timeout") := by
  have h := score_market_bands "HIGH" (mkRat 3 2) "why" "timeout"
  exact ⟨h.2.2.2.2.1 rfl (by decide), h.1⟩

/-! ## `select_best_market` (`src/flows/dspy_enhanced_aigg_flow.py`)

The `market_selector` call is modelled by `resp`; `.error` stands for
any exception raised inside the `try` (including an unparseable
`result.confidence`). -/

/-- The fields of a `MarketRecord` the selector reads. -/
structure MRecord where
  market_id : String
  title : String
deriving DecidableEq, Repr

/-- A structured response of the market-selector signature. -/
structure SelResult where
  selected_id : String
  confidence : ℚ
  reasoning : String
deriving DecidableEq, Repr

/-- `select_best_market`: returns `none` ("no confident match") when
the clamped confidence is below 0.3; otherwise the market whose id
equals the stripped `selected_id`, the first market when that id is
not in the list, and the first market on any selector exception. -/
def select_best_market (markets : List MRecord) (resp : Except String SelResult) :
    Option MRecord :=
  match markets with
  | [] => none
  | [m] =>
    match resp with
    | .error _ => some m
    | .ok r => if min 1 (max 0 r.confidence) < mkRat 3 10 then none else some m
  | m :: _ :: _ =>
    match resp with
    | .error _ => some m
    | .ok r =>
      if min 1 (max 0 r.confidence) < mkRat 3 10 then none
      else
        match markets.find? fun mk => mk.market_id == pyStrip r.selected_id with
        | some mk => some mk
        | none => some m

/-- Selector test fixtures. -/
def mA : MRecord := ⟨"a", "Title A"⟩

def mB : MRecord := ⟨"b", "Title B"⟩

/-! ### C8: low-confidence rejection -/

/-- C8: for every non-empty market list, whenever the selector
responds with a (clamped) confidence below the 0.3 threshold,
`select_best_market` returns `none` rather than a low-quality top-1 —
in any input ordering, since the list is arbitrary. -/
theorem select_best_market_low_confidence (markets : List MRecord) (r : SelResult)
    (hne : markets ≠ [])
    (hc : min 1 (max 0 r.confidence) < mkRat 3 10) :
    select_best_market markets (.ok r) = none := by
  match markets with
  | [] => exact absurd rfl hne
  | [m] =>
    unfold select_best_market
    dsimp only
    rw [if_pos hc]
  | m :: m2 :: rest =>
    unfold select_best_market
    dsimp only
    rw [if_pos hc]

/-- Witness for C8 at a concrete low-confidence response. -/
theorem select_best_market_low_confidence_witness :
    select_best_market [mA, mB] (.ok ⟨"zzz", mkRat 1 10, "weak"⟩) = none :=
  select_best_market_low_confidence [mA, mB] ⟨"zzz", mkRat 1 10, "weak"⟩
    (by decide) (by decide)

/-! ### C10: no fabricated selection -/

/-- C10: for every non-empty market list and every selector outcome,
`select_best_market` returns `none` or an element of the input list —
on the error path and the invalid-id path included; and whenever the
selector confidently returns an id not present in the list, the first
market of the input list is returned. -/
theorem select_best_market_no_fabrication (markets : List MRecord)
    (resp : Except String SelResult) (hne : markets ≠ []) :
    (select_best_market markets resp = none ∨
      ∃ m, m ∈ markets ∧ select_best_market markets resp = some m) ∧
    (∀ r, resp = .ok r → ¬(min 1 (max 0 r.confidence) < mkRat 3 10) →
      (markets.find? fun mk => mk.market_id == pyStrip r.selected_id) = none →
      select_best_market markets resp = some (markets.head hne)) := by
  match markets with
  | [] => exact absurd rfl hne
  | [m] =>
    cases resp with
    | error e =>
      exact ⟨Or.inr ⟨m, List.mem_singleton_self m, rfl⟩, fun r hr => by cases hr⟩
    | ok r =>
      unfold select_best_market
      dsimp only
      split_ifs with hcnf
      · exact ⟨Or.inl rfl, fun r' hr' hc' => by cases hr'; exact absurd hcnf hc'⟩
      · exact ⟨Or.inr ⟨m, List.mem_singleton_self m, rfl⟩, fun r' hr' hc' hfind => rfl⟩
  | m :: m2 :: rest =>
    cases resp with
    | error e =>
      refine ⟨Or.inr ⟨m, List.mem_cons_self m _, rfl⟩, fun r hr => by cases hr⟩
    | ok r =>
      unfold select_best_market
      dsimp only
      split_ifs with hcnf
      · exact ⟨Or.inl rfl, fun r' hr' hc' => by cases hr'; exact absurd hcnf hc'⟩
      · cases hfind : (m :: m2 :: rest).find? fun mk => mk.market_id == pyStrip r.selected_id with
        | some mk =>
          simp only [hfind]
          refine ⟨Or.inr ⟨mk, List.mem_of_find?_eq_some hfind, rfl⟩, ?_⟩
          intro r' hr' hc' hfind'
          cases hr'
          rw [hfind] at hfind'
          cases hfind'
        | none =>
          simp only [hfind]
          exact ⟨Or.inr ⟨m, List.mem_cons_self m _, rfl⟩, fun r' hr' hc' hfind' => rfl⟩

/-- Witness for C10: a confident selector answer with an id absent
from the list yields the first market. -/
theorem select_best_market_no_fabrication_witness :
    select_best_market [mA, mB] (.ok ⟨"zzz", 1, "sure"⟩) = some mA :=
  (select_best_market_no_fabrication [mA, mB] (.ok ⟨"zzz", 1, "sure"⟩) (by decide)).2
    ⟨"zzz", 1, "sure"⟩ rfl (by decide) (by decide)

/-! ## The archive batch matcher
(`src/flows/archive/llm_market_matcher.py`)

`batchO n` is the outcome of the batch-scoring call for batch `n` in
submission order (`.error` = the call raised or its `scores_json` was
unparseable); `indivO n k` is the outcome of the per-item rescoring
call for item `k` of batch `n`.  The thread pool's completion order
only permutes `all_scores`, which the final sort re-orders, and the
per-candidate entry counts studied here are permutation-invariant, so
batches are accumulated in submission order. -/

/-- `MarketData` (the fields scoring and accumulation read). -/
structure MarketData where
  id : String
  title : String
  category : String
  end_date : Option String
  active : Bool
deriving DecidableEq, Repr

/-- One item of a successful batch response's parsed `scores_json`
array: `id` is `none` when the `'id'` key is missing (its `KeyError`
skips the item), `score` is the outcome of
`float(item.get('score', 0.0))` (`.error` when the conversion raises),
`reasoning` is `none` when the key is absent. -/
structure ScoreItem where
  id : Option String
  score : Except String ℚ
  reasoning : Option String
deriving Repr

/-- An entry of the accumulated result list (the dicts with
`market_id`, `relevance_score`, `reasoning`). -/
structure ScoredEntry where
  market_id : String
  relevance_score : ℚ
  reasoning : String
deriving DecidableEq, Repr

/-- `max(0.0, min(1.0, score))`. -/
def clamp01 (s : ℚ) : ℚ := max 0 (min 1 s)

/-- `score_single_market` with its `(0.0, "Error in scoring")`
fallback. -/
def score_single_market (resp : Except String (ℚ × String)) : ℚ × String :=
  match resp with
  | .error _ => (0, "Error in scoring")
  | .ok sr => (clamp01 sr.1, sr.2)

/-- `_fallback_individual_scoring` from index `k` on: one entry per
market, scored individually. -/
def fallback_individual_scoring (indiv : ℕ → Except String (ℚ × String)) :
    List MarketData → ℕ → List ScoredEntry
  | [], _ => []
  | m :: rest, k =>
    { market_id := m.id
      relevance_score := (score_single_market (indiv k)).1
      reasoning := (score_single_market (indiv k)).2 } ::
      fallback_individual_scoring indiv rest (k + 1)

/-- Parsing one response item (the per-item `try/except` with
`continue`): dropped when `float()` raises or the `'id'` key is
missing. -/
def parseScoreItem (it : ScoreItem) : Option ScoredEntry :=
  match it.score with
  | .error _ => none
  | .ok s =>
    match it.id with
    | none => none
    | some i => some ⟨i, clamp01 s, it.reasoning.getD "No reasoning provided"⟩

/-- `score_markets_batch`: empty input gives `[]`; a batch call that
raises (or returns unparseable JSON) falls back to per-item scoring;
a successful response yields exactly its parseable items. -/
def score_markets_batch (markets : List MarketData)
    (batchResp : Except String (List ScoreItem))
    (indiv : ℕ → Except String (ℚ × String)) : List ScoredEntry :=
  if markets.isEmpty then []
  else
    match batchResp with
    | .error _ => fallback_individual_scoring indiv markets 0
    | .ok items => items.filterMap parseScoreItem

/-- Lookup in `score_map = {e['market_id']: e for e in batch_scores}`:
the dict comprehension keeps the LAST entry per id. -/
def lookupLast (entries : List ScoredEntry) (i : String) : Option ScoredEntry :=
  entries.reverse.find? fun e => e.market_id == i

/-- Accumulation for one completed batch:
`for market in batch: if market.id in score_map: all_scores.append`. -/
def batchContribution (batch : List MarketData) (entries : List ScoredEntry) :
    List (MarketData × ℚ × String) :=
  batch.filterMap fun m =>
    (lookupLast entries m.id).map fun e => (m, e.relevance_score, e.reasoning)

/-- Fixed-size batching, `batch_size = 20` in the source; the fuel is
the list length, consumed at least one element per step. -/
def toBatchesAux {α : Type} : ℕ → List α → List (List α)
  | 0, _ => []
  | _, [] => []
  | fuel + 1, a :: l => ((a :: l).take 20) :: toBatchesAux fuel ((a :: l).drop 20)

/-- `for i in range(0, len(markets), batch_size)` chunking. -/
def toBatches {α : Type} (l : List α) : List (List α) := toBatchesAux l.length l

/-- Accumulation over the batches from index `n` on. -/
def scoreAllAux (batchO : ℕ → Except String (List ScoreItem))
    (indivO : ℕ → ℕ → Except String (ℚ × String)) :
    List (List MarketData) → ℕ → List (MarketData × ℚ × String)
  | [], _ => []
  | b :: rest, n =>
    batchContribution b (score_markets_batch b (batchO n) (indivO n)) ++
      scoreAllAux batchO indivO rest (n + 1)

/-- `scoreAll`: the accumulation phase of the archive
`find_best_markets` (everything before the final sort and top-k
truncation). -/
def scoreAll (markets : List MarketData)
    (batchO : ℕ → Except String (List ScoreItem))
    (indivO : ℕ → ℕ → Except String (ℚ × String)) :
    List (MarketData × ℚ × String) :=
  scoreAllAux batchO indivO (toBatches markets) 0

/-! ### C9: batch partial-failure containment -/

/-- 21 candidate markets with distinct ids: two batches (20 + 1). -/
def ms21 : List MarketData :=
  ["a01", "a02", "a03", "a04", "a05", "a06", "a07", "a08", "a09", "a10",
   "a11", "a12", "a13", "a14", "a15", "a16", "a17", "a18", "a19", "a20", "a21"].map
    fun i => { id := i, title := "t", category := "c", end_date := none, active := true }

/-- C9, counterexample: with 21 candidates (two batches), batch 0
fails outright and is individually re-scored (20 entries, as the
claim describes), but batch 1 SUCCEEDS with a valid-JSON response
containing no items; its candidate gets no entry and no re-scoring —
a silent drop, 20 accumulated entries for 21 input candidates. -/
theorem batch_scoring_silent_drop :
    (scoreAll ms21 (fun n => if n = 0 then .error "rate limited" else .ok [])
        (fun _ _ => .error "also down")).length = 20 ∧
    ms21.length = 21 := by
  decide

/-- Per-item fallback entries cover every id of the batch. -/
theorem fallback_covers (indiv : ℕ → Except String (ℚ × String)) :
    ∀ (batch : List MarketData) (k : ℕ), ∀ m ∈ batch,
      ∃ e ∈ fallback_individual_scoring indiv batch k, e.market_id = m.id := by
  intro batch
  induction batch with
  | nil =>
    intro k m hm
    cases hm
  | cons b rest ih =>
    intro k m hm
    cases hm with
    | head =>
      exact ⟨_, List.mem_cons_self _ _, rfl⟩
    | tail _ hm =>
      obtain ⟨e, he, hid⟩ := ih (k + 1) m hm
      exact ⟨e, List.mem_cons_of_mem _ he, hid⟩

/-- When the score map covers every id of the batch, the batch
contributes exactly one tuple per candidate. -/
theorem batchContribution_length (batch : List MarketData) (entries : List ScoredEntry)
    (h : ∀ m ∈ batch, ∃ e ∈ entries, e.market_id = m.id) :
    (batchContribution batch entries).length = batch.length := by
  induction batch with
  | nil => rfl
  | cons b rest ih =>
    obtain ⟨e, he, hid⟩ := h b (List.mem_cons_self _ _)
    have hb : (lookupLast entries b.id).isSome := by
      unfold lookupLast
      rw [List.find?_isSome]
      exact ⟨e, List.mem_reverse.mpr he, by simp [hid]⟩
    obtain ⟨e', he'⟩ := Option.isSome_iff_exists.mp hb
    unfold batchContribution at *
    rw [List.filterMap_cons_some (by rw [he']; rfl),
      List.length_cons, ih fun m hm => h m (List.mem_cons_of_mem _ hm)]
    rfl

/-- Accumulated length over a batch list, assuming every successful
batch response covers the ids of its own batch. -/
theorem scoreAllAux_length (batchO : ℕ → Except String (List ScoreItem))
    (indivO : ℕ → ℕ → Except String (ℚ × String)) :
    ∀ (bs : List (List MarketData)) (n : ℕ),
      (∀ k items batch, batchO (n + k) = .ok items → bs.get? k = some batch →
        ∀ m ∈ batch, ∃ e ∈ items.filterMap parseScoreItem, e.market_id = m.id) →
      (scoreAllAux batchO indivO bs n).length = (bs.map List.length).sum := by
  intro bs
  induction bs with
  | nil =>
    intro n _
    rfl
  | cons b rest ih =>
    intro n h
    unfold scoreAllAux
    rw [List.length_append]
    have hcontrib :
        (batchContribution b (score_markets_batch b (batchO n) (indivO n))).length =
          b.length := by
      cases b with
      | nil => rfl
      | cons b0 bt =>
        unfold score_markets_batch
        rw [if_neg (by simp)]
        cases hresp : batchO n with
        | error e =>
          exact batchContribution_length _ _ fun m hm => fallback_covers (indivO n) _ 0 m hm
        | ok items =>
          exact batchContribution_length _ _ fun m hm =>
            h 0 items (b0 :: bt) (by simpa using hresp) rfl m hm
    have hrest := ih (n + 1) fun k items batch hk hbatch =>
      h (k + 1) items batch (by rw [show n + (k + 1) = n + 1 + k by omega]; exact hk) hbatch
    rw [hcontrib, hrest, List.map_cons, List.sum_cons]

/-- The 20-sized chunks partition the input. -/
theorem toBatchesAux_sum {α : Type} :
    ∀ (fuel : ℕ) (l : List α), l.length ≤ fuel →
      ((toBatchesAux fuel l).map List.length).sum = l.length := by
  intro fuel
  induction fuel with
  | zero =>
    intro l hl
    have : l = [] := List.eq_nil_of_length_eq_zero (Nat.le_zero.mp hl)
    subst this
    rfl
  | succ f ih =>
    intro l hl
    cases l with
    | nil => rfl
    | cons a t =>
      unfold toBatchesAux
      rw [List.map_cons, List.sum_cons, ih _ (by simp only [List.length_drop]; omega)]
      simp only [List.length_take, List.length_drop]
      omega

/-- C9 (amended): a batch whose scoring call fails is re-scored per
item, restoring one entry per candidate of that batch; the
accumulation holds exactly one entry per input candidate PROVIDED each
batch whose call succeeds returns a parseable item for every id of its
batch — a successful response that omits a candidate's id (or whose
item for it is malformed) silently drops that candidate. -/
theorem scoreAll_entry_counts (markets : List MarketData)
    (batchO : ℕ → Except String (List ScoreItem))
    (indivO : ℕ → ℕ → Except String (ℚ × String))
    (h : ∀ k items batch, batchO k = .ok items → (toBatches markets).get? k = some batch →
      ∀ m ∈ batch, ∃ e ∈ items.filterMap parseScoreItem, e.market_id = m.id) :
    (scoreAll markets batchO indivO).length = markets.length := by
  unfold scoreAll
  rw [scoreAllAux_length batchO indivO (toBatches markets) 0
    fun k items batch hk hbatch => h k items batch (by simpa using hk) hbatch]
  exact toBatchesAux_sum _ _ le_rfl

/-- Two candidate markets, one batch. -/
def ms2 : List MarketData :=
  [{ id := "a", title := "t", category := "c", end_date := none, active := true },
   { id := "b", title := "t", category := "c", end_date := none, active := true }]

/-- A complete, well-formed batch response for `ms2`. -/
def goodItems : List ScoreItem :=
  [{ id := some "a", score := .ok (mkRat 1 2), reasoning := some "fine" },
   { id := some "b", score := .ok (mkRat 1 5), reasoning := none }]

/-- Witness for C9's amended theorem: one batch, a successful response
covering both ids, exactly 2 entries for 2 candidates. -/
theorem scoreAll_entry_counts_witness :
    (scoreAll ms2 (fun n => if n = 0 then .ok goodItems else .error "x")
        (fun _ _ => .error "down")).length = ms2.length := by
  refine scoreAll_entry_counts ms2 _ _ ?_
  intro k items batch hk hbatch
  cases k with
  | zero =>
    rw [if_pos rfl] at hk
    cases hk
    rw [show (toBatches ms2).get? 0 = some ms2 from rfl] at hbatch
    cases hbatch
    decide
  | succ k' =>
    rw [if_neg (by omega)] at hk
    cases hk

end AiggSpec
